import Mathlib

/-!
Verification of the ME_405_Plotter motion-control core.

This file gives a shallow embedding, in Lean 4, of the parts of
`Python_Code/stepper_driver.py` and `Python_Code/tasks.py` that the
specification's claims are about, and proves (or refutes) each claim
against that embedding.

Modelling conventions:
* Python integers are `Int` (or `Nat` where the source value is a register
  byte, always non-negative); Python float arithmetic in the planner is
  embedded over `ℚ` (the algorithms' exact arithmetic).
* A Python `bytearray` byte assignment accepts only values in `[0, 255]`
  and raises `ValueError` otherwise; fallible byte construction is
  therefore modelled with `Option`.
* Register state touched over the SPI bus is carried explicitly as values
  (a simulated bus), with one field per hardware register involved.
-/

/-! ## Constants from `tasks.py` -/

/-- `TYPE_PEN_UP = 1` (tasks.py line 77). -/
def TYPE_PEN_UP : Nat := 1

/-- `TYPE_PEN_DOWN = 2` (tasks.py line 78). -/
def TYPE_PEN_DOWN : Nat := 2

/-- `TYPE_CMDS_DONE = 3` (tasks.py line 79). -/
def TYPE_CMDS_DONE : Nat := 3

/-- `TYPE_COMMS_DONE = 4` (tasks.py line 80). -/
def TYPE_COMMS_DONE : Nat := 4

/-- `MOTOR2_POLARITY = -1` (tasks.py line 49). -/
def MOTOR2_POLARITY : Int := -1

/-- `MOTOR2_HOMING_ANGLE = -int((34.7/2 + 60.24 + 0.9) / 40 * 200 * 8)`
(tasks.py line 48).  The float value is 3139.6 (to within far less than 1),
so `int` truncation gives 3139 and the constant is `-3139`. -/
def MOTOR2_HOMING_ANGLE : Int := -3139

/-! ## `Stepper_Driver.set_target` (stepper_driver.py lines 263-289)

The method clamps its argument against `x_max` from above only
(`if x_target > self.x_max: x_target = self.x_max`), then builds the
datagram payload bytes

  `send[1] = (x_target >> 16)`
  `send[2] = (x_target >> 8) & 0xFF`
  `send[3] = x_target & 0xFF`

`>>` is Python's arithmetic (floor) shift, modelled by `Int.fdiv` by a
power of two, and `& 0xFF` on a (possibly negative) Python int is
`Int.emod · 256`.  Each byte store into the `bytearray` must land in
`[0, 255]`, else Python raises `ValueError`; this is the `Option`. -/

/-- Storing a computed value into a `bytearray` cell: succeeds exactly on
values in `[0, 255]`. -/
def byteAssign (v : Int) : Option Nat :=
  if 0 ≤ v ∧ v ≤ 255 then some v.toNat else none

/-- Payload bytes (`send[1]`, `send[2]`, `send[3]`) committed to the
X_TARGET register by `set_target`, or `none` when the byte construction
raises.  `xmax` is the driver's `self.x_max`. -/
def set_target (xmax : Nat) (x_target : Int) : Option (Nat × Nat × Nat) :=
  let x : Int := if x_target > (xmax : Int) then (xmax : Int) else x_target
  match byteAssign (x.fdiv 65536), byteAssign ((x.fdiv 256).emod 256),
      byteAssign (x.emod 256) with
  | some b1, some b2, some b3 => some (b1, b2, b3)
  | _, _, _ => none

/-- Big-endian 24-bit value denoted by a committed payload. -/
def payloadValue (b : Nat × Nat × Nat) : Nat :=
  b.1 * 65536 + b.2.1 * 256 + b.2.2

/-! ## `Stepper_Driver.target_reached` (stepper_driver.py lines 300-316)

Reads the X_ACTUAL register; `curr_pos = int.from_bytes(recv[1:], 'big',
False)` decodes the three payload bytes as an unsigned big-endian integer,
which is then compared to `x_target` with `==`. -/

/-- `target_reached`, as a function of the argument and of the three
payload bytes returned by the bus for the X_ACTUAL read. -/
def target_reached (x_target : Int) (recv1 recv2 recv3 : Nat) : Bool :=
  let curr_pos : Int := (recv1 * 65536 + recv2 * 256 + recv3 : Nat)
  curr_pos == x_target

/-- `convert_motor2_target` (tasks.py lines 171-182):
`MOTOR2_POLARITY * (microsteps - MOTOR2_HOMING_ANGLE)`. -/
def convert_motor2_target (microsteps : Int) : Int :=
  MOTOR2_POLARITY * (microsteps - MOTOR2_HOMING_ANGLE)

/-! ## Shared-byte register setters (stepper_driver.py lines 141-215)

`set_pulse_div` / `set_ramp_div` both address the register whose third
datagram byte (`recv[2]`) holds PULSE_DIV in the high nibble and RAMP_DIV
in the low nibble; each reads the byte over the bus, masks its own
nibble in, and writes the byte back.  `set_pmul` / `set_pdiv` address a
second register: PMUL lives in the low 7 bits of `recv[2]`, PDIV in the
low nibble of `recv[3]`.  The simulated bus is the register byte itself
(for PMUL/PDIV: the pair of bytes). -/

/-- `set_pulse_div` acting on the shared PULSE_DIV/RAMP_DIV byte:
`recv[2] &= 0x0F; recv[2] |= (pulse_div << 4)`. -/
def set_pulse_div (pulse_div b : Nat) : Nat :=
  (b &&& 0x0F) ||| (pulse_div <<< 4)

/-- `set_ramp_div` acting on the shared PULSE_DIV/RAMP_DIV byte:
`recv[2] &= 0xF0; recv[2] |= ramp_div`. -/
def set_ramp_div (ramp_div b : Nat) : Nat :=
  (b &&& 0xF0) ||| ramp_div

/-- PULSE_DIV field of the shared byte (high nibble). -/
def pulse_div_field (b : Nat) : Nat := b >>> 4

/-- RAMP_DIV field of the shared byte (low nibble). -/
def ramp_div_field (b : Nat) : Nat := b &&& 0x0F

/-- `set_pmul` acting on the (byte2, byte3) pair of the PMUL/PDIV
register: `recv[2] &= 0b10000000; recv[2] |= pmul`. -/
def set_pmul (pmul : Nat) (r : Nat × Nat) : Nat × Nat :=
  ((r.1 &&& 0b10000000) ||| pmul, r.2)

/-- `set_pdiv` acting on the (byte2, byte3) pair of the PMUL/PDIV
register: `recv[3] &= 0xF0; recv[3] |= pdiv`. -/
def set_pdiv (pdiv : Nat) (r : Nat × Nat) : Nat × Nat :=
  (r.1, (r.2 &&& 0xF0) ||| pdiv)

/-- PMUL field (low 7 bits of byte2). -/
def pmul_field (r : Nat × Nat) : Nat := r.1 &&& 0x7F

/-- PDIV field (low nibble of byte3). -/
def pdiv_field (r : Nat × Nat) : Nat := r.2 &&& 0x0F

set_option maxRecDepth 16000

/-- Helper: `Int.emod` is the `%` of the euclidean structure on `ℤ`. -/
theorem int_emod_eq (a b : Int) : Int.emod a b = a % b := rfl

/-! ## Nibble arithmetic helper facts (for claim C2) -/

/-- Helper: a low nibble or'ed with a shifted nibble, masked high. -/
theorem nibble_or_hi : ∀ x < 16, ∀ p < 16,
    ((x ||| (p <<< 4)) &&& 240 = p <<< 4) ∧ ((x ||| (p <<< 4)) &&& 15 = x) := by
  decide

/-- Helper: a value with clear low nibble or'ed with a nibble, masked low. -/
theorem lo_clear_or : ∀ y ≤ 240, ∀ r < 16,
    y &&& 15 = 0 → (y ||| r) &&& 15 = r := by
  decide

/-- Helper: or'ing a low nibble does not disturb the high nibble of a byte. -/
theorem or_lo_shiftRight : ∀ b < 256, ∀ r < 16,
    ((b &&& 240) ||| r) >>> 4 = b >>> 4 := by
  decide

/-- Helper: fields of a freshly packed PULSE_DIV/RAMP_DIV byte. -/
theorem packed_fields : ∀ p < 16, ∀ r < 16,
    (((p <<< 4) ||| r) >>> 4 = p) ∧ (((p <<< 4) ||| r) &&& 15 = r) := by
  decide

/-- Helper: bit 7 of a byte is either clear or set. -/
theorem bit7_cases : ∀ b < 256, b &&& 128 = 0 ∨ b &&& 128 = 128 := by
  decide

/-- Helper: a 7-bit value survives packing next to bit 7. -/
theorem pmul_pack : ∀ m < 128, ((0 ||| m) &&& 127 = m) ∧ ((128 ||| m) &&& 127 = m) := by
  decide

/-- C2: for every starting register byte and every pair of 4-bit values `p`
and `r`, running `set_pulse_div(p)` and `set_ramp_div(r)` in either order
against a bus tracking the shared register byte leaves the PULSE_DIV field
equal to `p` and the RAMP_DIV field equal to `r`, each setter preserving
the other field by read-modify-write; `set_pmul` (7-bit) and `set_pdiv`
(4-bit) enjoy the same isolation on their shared register. -/
theorem shared_register_isolation
    (b b2 b3 p r m d : Nat)
    (hb : b < 256) (hb2 : b2 < 256) (hb3 : b3 < 256)
    (hp : p < 16) (hr : r < 16) (hm : m < 128) (hd : d < 16) :
    (set_ramp_div r (set_pulse_div p b) = set_pulse_div p (set_ramp_div r b)
      ∧ pulse_div_field (set_ramp_div r (set_pulse_div p b)) = p
      ∧ ramp_div_field (set_ramp_div r (set_pulse_div p b)) = r
      ∧ ramp_div_field (set_pulse_div p b) = ramp_div_field b
      ∧ pulse_div_field (set_ramp_div r b) = pulse_div_field b)
    ∧ (set_pdiv d (set_pmul m (b2, b3)) = set_pmul m (set_pdiv d (b2, b3))
      ∧ pmul_field (set_pdiv d (set_pmul m (b2, b3))) = m
      ∧ pdiv_field (set_pdiv d (set_pmul m (b2, b3))) = d
      ∧ pdiv_field (set_pmul m (b2, b3)) = pdiv_field (b2, b3)
      ∧ pmul_field (set_pdiv d (b2, b3)) = pmul_field (b2, b3)) := by
  have hlo : b &&& 15 < 16 := Nat.lt_of_le_of_lt Nat.and_le_right (by norm_num)
  have hhiy : b &&& 240 ≤ 240 := Nat.and_le_right
  have hhi0 : (b &&& 240) &&& 15 = 0 := by
    rw [Nat.and_assoc, show (240 &&& 15 : Nat) = 0 by decide, Nat.and_zero]
  have hb3y : b3 &&& 240 ≤ 240 := Nat.and_le_right
  have hb30 : (b3 &&& 240) &&& 15 = 0 := by
    rw [Nat.and_assoc, show (240 &&& 15 : Nat) = 0 by decide, Nat.and_zero]
  have e1 : set_ramp_div r (set_pulse_div p b) = (p <<< 4) ||| r := by
    show ((((b &&& 15) ||| (p <<< 4))) &&& 240) ||| r = (p <<< 4) ||| r
    rw [(nibble_or_hi (b &&& 15) hlo p hp).1]
  have e2 : set_pulse_div p (set_ramp_div r b) = (p <<< 4) ||| r := by
    show ((((b &&& 240) ||| r)) &&& 15) ||| (p <<< 4) = (p <<< 4) ||| r
    rw [lo_clear_or (b &&& 240) hhiy r hr hhi0, Nat.lor_comm]
  refine ⟨⟨?_, ?_, ?_, ?_, ?_⟩, ?_, ?_, ?_, ?_, ?_⟩
  · rw [e1, e2]
  · rw [e1]; exact (packed_fields p hp r hr).1
  · rw [e1]; exact (packed_fields p hp r hr).2
  · show ((b &&& 15) ||| (p <<< 4)) &&& 15 = b &&& 15
    exact (nibble_or_hi (b &&& 15) hlo p hp).2
  · exact or_lo_shiftRight b hb r hr
  · rfl
  · show ((b2 &&& 128) ||| m) &&& 127 = m
    rcases bit7_cases b2 hb2 with h | h <;> rw [h]
    · exact (pmul_pack m hm).1
    · exact (pmul_pack m hm).2
  · show ((b3 &&& 240) ||| d) &&& 15 = d
    exact lo_clear_or (b3 &&& 240) hb3y d hd hb30
  · rfl
  · rfl

/-- Witness for C2 at the concrete byte `0xAB` with `p = 3`, `r = 7`
(and `0xCD`/`0xEF`, `m = 100`, `d = 9` for the PMUL/PDIV register). -/
theorem shared_register_isolation_witness :
    set_ramp_div 7 (set_pulse_div 3 0xAB) = set_pulse_div 3 (set_ramp_div 7 0xAB)
      ∧ pulse_div_field (set_ramp_div 7 (set_pulse_div 3 0xAB)) = 3
      ∧ pmul_field (set_pdiv 9 (set_pmul 100 (0xCD, 0xEF))) = 100 := by
  have h := shared_register_isolation 0xAB 0xCD 0xEF 3 7 100 9
    (by decide) (by decide) (by decide) (by decide) (by decide) (by decide) (by decide)
  exact ⟨h.1.1, h.1.2.1, h.2.2.1⟩

/-- C9: for every negative target value and every possible actual-position
register read, `target_reached` returns `false`, because the 24-bit actual
position is decoded unsigned and compared for equality; and the polarity
`-1` correction of `convert_motor2_target` produces such negative targets
for every microstep value above the homing offset. -/
theorem negative_target_never_reached (x_target : Int) (hx : x_target < 0) :
    (∀ recv1 recv2 recv3 : Nat, target_reached x_target recv1 recv2 recv3 = false)
    ∧ (∀ microsteps : Int, MOTOR2_HOMING_ANGLE < microsteps →
        convert_motor2_target microsteps < 0) := by
  constructor
  · intro r1 r2 r3
    unfold target_reached
    rw [beq_eq_false_iff_ne]
    intro h
    omega
  · intro ms h
    unfold convert_motor2_target MOTOR2_POLARITY MOTOR2_HOMING_ANGLE at *
    omega

/-- Witness for C9 at `x_target = -1` and a zero register read, and at
`microsteps = 0` for the motor-2 conversion. -/
theorem negative_target_never_reached_witness :
    target_reached (-1) 0 0 0 = false ∧ convert_motor2_target 0 < 0 :=
  ⟨(negative_target_never_reached (-1) (by decide)).1 0 0 0,
   (negative_target_never_reached (-1) (by decide)).2 0 (by decide)⟩

/-- C1 counterexample: the claim says every integer input is clamped to
`[0, x_max]`, so `set_target(-1)` would commit the value `0`; in the code
only the upper bound is clamped (`if x_target > self.x_max`), and a
negative input makes `send[1] = x_target >> 16` negative, which a
`bytearray` store rejects (`ValueError`) — no value is committed at all. -/
theorem set_target_no_lower_clamp : set_target 20000 (-1) = none := by decide

/-- C1 amended: `set_target(x)` saturates only from above: for every
non-negative input it commits exactly `min x x_max` (so `x_max + 1000`
commits exactly `x_max`, silently), while negative inputs are not
saturated to `0` but fail the datagram byte construction. -/
theorem set_target_clamps_above (xmax : Nat) (x_target : Int)
    (hmax : xmax < 16777216) (hx : 0 ≤ x_target) :
    ∃ b1 b2 b3 : Nat, set_target xmax x_target = some (b1, b2, b3)
      ∧ (payloadValue (b1, b2, b3) : Int) = min x_target (xmax : Int) := by
  simp only [set_target, byteAssign, Int.fdiv_eq_ediv _ (by norm_num : (0:ℤ) ≤ 65536),
    Int.fdiv_eq_ediv _ (by norm_num : (0:ℤ) ≤ 256), int_emod_eq]
  set x : Int := if x_target > (xmax : Int) then (xmax : Int) else x_target with hxdef
  have hx0 : 0 ≤ x := by rw [hxdef]; split <;> omega
  have hx24 : x < 16777216 := by rw [hxdef]; split <;> omega
  have hxmin : x = min x_target (xmax : Int) := by rw [hxdef]; omega
  rw [if_pos (by constructor <;> omega : 0 ≤ x / 65536 ∧ x / 65536 ≤ 255),
    if_pos (by constructor <;> omega : 0 ≤ x / 256 % 256 ∧ x / 256 % 256 ≤ 255),
    if_pos (by constructor <;> omega : 0 ≤ x % 256 ∧ x % 256 ≤ 255)]
  refine ⟨(x / 65536).toNat, (x / 256 % 256).toNat, (x % 256).toNat, rfl, ?_⟩
  simp only [payloadValue]
  push_cast
  omega

/-- Witness for C1 (amended) at `x_max = 20000` and input `x_max + 1000`. -/
theorem set_target_clamps_above_witness :
    ∃ b1 b2 b3 : Nat, set_target 20000 21000 = some (b1, b2, b3)
      ∧ (payloadValue (b1, b2, b3) : Int) = min 21000 (20000 : Int) :=
  set_target_clamps_above 20000 21000 (by decide) (by decide)

/-! ## Planner interpolation (tasks.py lines 280-312)

The interpolation loop in `create_cmd_list` processes each consecutive
coordinate pair `(prev, next)`: it computes
`increments = int(math.ceil(max(abs(x_diff), abs(y_diff)) / MAX_MM_DIST))`,
appends, for `p in range(increments - 1)`, the point
`prev + float(p + 1) / increments * diff` (both axes), and finally appends
the original point `next` itself unchanged.  The float arithmetic of the
source is embedded exactly over `ℚ`. -/

/-- `MAX_MM_DIST = 0.5` (tasks.py line 26). -/
def MAX_MM_DIST : ℚ := 1 / 2

/-- Number of uniform subdivisions for one consecutive pair,
`int(math.ceil(max(abs(x_diff), abs(y_diff)) / MAX_MM_DIST))`. -/
def increments (prev pt : ℚ × ℚ) : Int :=
  ⌈max |pt.1 - prev.1| |pt.2 - prev.2| / MAX_MM_DIST⌉

/-- The `p`-th inserted point,
`(prev_x + float(p + 1) / increments * x_diff,
  prev_y + float(p + 1) / increments * y_diff)`. -/
def interpPoint (prev pt : ℚ × ℚ) (p : Nat) : ℚ × ℚ :=
  (prev.1 + ((p : ℚ) + 1) / (increments prev pt : ℚ) * (pt.1 - prev.1),
   prev.2 + ((p : ℚ) + 1) / (increments prev pt : ℚ) * (pt.2 - prev.2))

/-- The points inserted by `for p in range(increments - 1)`. -/
def interpInserted (prev pt : ℚ × ℚ) : List (ℚ × ℚ) :=
  (List.range (increments prev pt - 1).toNat).map (interpPoint prev pt)

/-- Everything appended to the new coordinate arrays while processing this
pair: the inserted points followed by the pair's endpoint, exactly as
given (`new_x_arr.append(x_arr[i])`). -/
def interpSegment (prev pt : ℚ × ℚ) : List (ℚ × ℚ) :=
  interpInserted prev pt ++ [pt]

/-- Helper: the chain `prev, inserted points…, pt` is the image of
`k ↦ prev + (k/n)·diff` over `k = 0, …, n` whenever `n ≥ 1`. -/
theorem interp_chain_eq_map (prev pt : ℚ × ℚ)
    (hn : 1 ≤ increments prev pt) :
    prev :: interpSegment prev pt =
      (List.range ((increments prev pt).toNat + 1)).map (fun k : Nat =>
        (prev.1 + (k : ℚ) / (increments prev pt : ℚ) * (pt.1 - prev.1),
         prev.2 + (k : ℚ) / (increments prev pt : ℚ) * (pt.2 - prev.2))) := by
  set n := increments prev pt with hndef
  set f : Nat → ℚ × ℚ := fun k : Nat =>
    (prev.1 + (k : ℚ) / (n : ℚ) * (pt.1 - prev.1),
     prev.2 + (k : ℚ) / (n : ℚ) * (pt.2 - prev.2)) with hfdef
  have hm : n.toNat = (n.toNat - 1) + 1 := by omega
  have hnQ : ((n.toNat : ℚ)) = ((n : ℤ) : ℚ) := by
    norm_cast
    omega
  have hn0 : ((n : ℤ) : ℚ) ≠ 0 := by
    have : (0 : ℚ) < ((n : ℤ) : ℚ) := by exact_mod_cast hn
    linarith
  rw [show n.toNat + 1 = (n.toNat) + 1 from rfl, List.range_succ_eq_map]
  rw [List.map_cons]
  congr 1
  · simp only [hfdef, Nat.cast_zero, zero_div, zero_mul, add_zero]
  · rw [hm, List.range_succ, List.map_append, List.map_append, List.map_map, List.map_map]
    unfold interpSegment interpInserted
    congr 1
    · have hnat : (n - 1).toNat = n.toNat - 1 := by omega
      rw [hnat]
      refine List.map_congr_left fun p _ => ?_
      simp only [hfdef, Function.comp_apply, interpPoint, ← hndef]
      push_cast
      ring_nf
    · simp only [List.map_cons, List.map_nil, hfdef, Function.comp_apply]
      have harg : ((n.toNat - 1 : ℕ).succ : ℚ) = ((n : ℤ) : ℚ) := by
        rw [← hnQ]
        norm_cast
        omega
      congr 1
      symm
      show (prev.1 + ((n.toNat - 1 : ℕ).succ : ℚ) / (n : ℚ) * (pt.1 - prev.1),
            prev.2 + ((n.toNat - 1 : ℕ).succ : ℚ) / (n : ℚ) * (pt.2 - prev.2)) = pt
      rw [harg, div_self hn0]
      simp

/-- C3: for every consecutive point pair processed by the interpolation
step, with `n = ceil(max(|dx|, |dy|) / 0.5)`: exactly `n - 1` evenly
spaced intermediate points are inserted, every inserted point lies on the
segment from `prev` to `next`, no resulting consecutive spacing exceeds
0.5 mm in either axis, and the endpoint `next` is appended exactly as
given. -/
theorem interpolation_bound (prev pt : ℚ × ℚ) :
    (interpInserted prev pt).length = (increments prev pt).toNat - 1
    ∧ (∀ q ∈ interpInserted prev pt, ∃ t : ℚ, 0 ≤ t ∧ t ≤ 1 ∧
        q = (prev.1 + t * (pt.1 - prev.1), prev.2 + t * (pt.2 - prev.2)))
    ∧ List.Chain' (fun a b : ℚ × ℚ =>
        |b.1 - a.1| ≤ MAX_MM_DIST ∧ |b.2 - a.2| ≤ MAX_MM_DIST)
        (prev :: interpSegment prev pt)
    ∧ (interpSegment prev pt).getLast? = some pt := by
  set n := increments prev pt with hndef
  have hn0 : 0 ≤ n := by
    rw [hndef]
    exact Int.ceil_nonneg (div_nonneg ((abs_nonneg _).trans (le_max_left _ _))
      (by norm_num [MAX_MM_DIST]))
  have hceil : max |pt.1 - prev.1| |pt.2 - prev.2| / MAX_MM_DIST ≤ ((n : ℤ) : ℚ) := by
    rw [hndef]
    exact Int.le_ceil _
  have hmax : max |pt.1 - prev.1| |pt.2 - prev.2| ≤ ((n : ℤ) : ℚ) * MAX_MM_DIST :=
    (div_le_iff (by norm_num [MAX_MM_DIST] : (0:ℚ) < MAX_MM_DIST)).mp hceil
  have hdx : |pt.1 - prev.1| ≤ ((n : ℤ) : ℚ) * MAX_MM_DIST :=
    (le_max_left _ _).trans hmax
  have hdy : |pt.2 - prev.2| ≤ ((n : ℤ) : ℚ) * MAX_MM_DIST :=
    (le_max_right _ _).trans hmax
  refine ⟨?_, ?_, ?_, ?_⟩
  · unfold interpInserted
    rw [List.length_map, List.length_range]
    omega
  · intro q hq
    unfold interpInserted at hq
    rw [List.mem_map] at hq
    obtain ⟨p, hp, rfl⟩ := hq
    rw [List.mem_range] at hp
    have hn2 : (2 : ℤ) ≤ n := by omega
    have hpos : (0 : ℚ) < ((n : ℤ) : ℚ) := by exact_mod_cast (by omega : (0:ℤ) < n)
    refine ⟨((p : ℚ) + 1) / ((n : ℤ) : ℚ), div_nonneg (by positivity) hpos.le, ?_, ?_⟩
    · rw [div_le_one hpos]
      have hpn : (p : ℤ) + 1 ≤ n := by omega
      exact_mod_cast hpn
    · simp only [interpPoint, ← hndef]
  · rcases le_or_lt n 1 with h1 | h2
    · have hins : (n - 1).toNat = 0 := by omega
      have hseg : interpSegment prev pt = [pt] := by
        unfold interpSegment interpInserted
        rw [← hndef, hins]
        simp
      rw [hseg]
      have hn1 : ((n : ℤ) : ℚ) ≤ 1 := by exact_mod_cast h1
      have hnn : (0 : ℚ) ≤ ((n : ℤ) : ℚ) := by exact_mod_cast hn0
      refine List.chain'_pair.mpr ⟨?_, ?_⟩
      · calc |pt.1 - prev.1| ≤ ((n : ℤ) : ℚ) * MAX_MM_DIST := hdx
          _ ≤ MAX_MM_DIST := by
            rw [MAX_MM_DIST] at *
            linarith
      · calc |pt.2 - prev.2| ≤ ((n : ℤ) : ℚ) * MAX_MM_DIST := hdy
          _ ≤ MAX_MM_DIST := by
            rw [MAX_MM_DIST] at *
            linarith
    · rw [interp_chain_eq_map prev pt (by omega), List.chain'_map, List.chain'_range_succ]
      intro m hm
      have hpos : (0 : ℚ) < ((n : ℤ) : ℚ) := by exact_mod_cast (by omega : (0:ℤ) < n)
      constructor
      · have heq : (prev.1 + ((m + 1 : ℕ) : ℚ) / ((n : ℤ) : ℚ) * (pt.1 - prev.1))
            - (prev.1 + ((m : ℕ) : ℚ) / ((n : ℤ) : ℚ) * (pt.1 - prev.1))
            = (pt.1 - prev.1) / ((n : ℤ) : ℚ) := by
          field_simp
          ring
        show |(prev.1 + ((m + 1 : ℕ) : ℚ) / ((n : ℤ) : ℚ) * (pt.1 - prev.1))
            - (prev.1 + ((m : ℕ) : ℚ) / ((n : ℤ) : ℚ) * (pt.1 - prev.1))| ≤ MAX_MM_DIST
        rw [heq, abs_div, abs_of_pos hpos, div_le_iff hpos, mul_comm]
        exact hdx
      · have heq : (prev.2 + ((m + 1 : ℕ) : ℚ) / ((n : ℤ) : ℚ) * (pt.2 - prev.2))
            - (prev.2 + ((m : ℕ) : ℚ) / ((n : ℤ) : ℚ) * (pt.2 - prev.2))
            = (pt.2 - prev.2) / ((n : ℤ) : ℚ) := by
          field_simp
          ring
        show |(prev.2 + ((m + 1 : ℕ) : ℚ) / ((n : ℤ) : ℚ) * (pt.2 - prev.2))
            - (prev.2 + ((m : ℕ) : ℚ) / ((n : ℤ) : ℚ) * (pt.2 - prev.2))| ≤ MAX_MM_DIST
        rw [heq, abs_div, abs_of_pos hpos, div_le_iff hpos, mul_comm]
        exact hdy
  · unfold interpSegment
    exact List.getLast?_concat _

/-- Witness for C3 at the pair `(0,0) → (1,0)`: the single inserted point
`(1/2, 0)` lies on the segment. -/
theorem interpolation_bound_witness :
    ∃ t : ℚ, 0 ≤ t ∧ t ≤ 1 ∧
      ((1/2 : ℚ), (0 : ℚ)) =
        (((0, 0) : ℚ × ℚ).1 + t * (((1, 0) : ℚ × ℚ).1 - ((0, 0) : ℚ × ℚ).1),
         ((0, 0) : ℚ × ℚ).2 + t * (((1, 0) : ℚ × ℚ).2 - ((0, 0) : ℚ × ℚ).2)) :=
  (interpolation_bound (0, 0) (1, 0)).2.1 (1/2, 0) (by
    have h2 : increments ((0 : ℚ), (0 : ℚ)) ((1 : ℚ), (0 : ℚ)) = 2 := by
      unfold increments MAX_MM_DIST
      norm_num
    unfold interpInserted interpPoint
    rw [h2]
    norm_num [List.mem_singleton, Prod.ext_iff])

/-! ## `NewtonRaphson` (tasks.py lines 210-229)

`NewtonRaphson(fcn, jacobian, guess, thresh)` loops
`while abs(g[0]) > thresh or abs(g[1]) > thresh:` updating
`theta <- theta - inv(jacobian(theta)) . g` and re-evaluating
`g = fcn(theta)`.  There is no iteration counter, no cap and no error
path anywhere in the function (nor any `KinematicDivergence` anywhere in
the repository).  The 2x2 matrix inverse of `np.linalg.inv` is embedded
directly by the adjugate formula; `np.linalg.inv` raises on a singular
matrix, while over `ℚ` division by a zero determinant yields zeros — a
value no theorem below relies on. -/

/-- 2x2 matrix inverse (`np.linalg.inv`), rows-of-pairs representation. -/
def inv2 (J : (ℚ × ℚ) × (ℚ × ℚ)) : (ℚ × ℚ) × (ℚ × ℚ) :=
  let det := J.1.1 * J.2.2 - J.1.2 * J.2.1
  ((J.2.2 / det, -J.1.2 / det), (-J.2.1 / det, J.1.1 / det))

/-- Matrix-vector product (`np.dot`). -/
def mat2vec (M : (ℚ × ℚ) × (ℚ × ℚ)) (v : ℚ × ℚ) : ℚ × ℚ :=
  (M.1.1 * v.1 + M.1.2 * v.2, M.2.1 * v.1 + M.2.2 * v.2)

/-- One body of the `while` loop:
`theta_arr = theta_arr - np.dot(np.linalg.inv(jacobian(theta)), g_arr)`. -/
def nrStep (fcn : ℚ × ℚ → ℚ × ℚ) (jacobian : ℚ × ℚ → (ℚ × ℚ) × (ℚ × ℚ))
    (theta : ℚ × ℚ) : ℚ × ℚ :=
  let upd := mat2vec (inv2 (jacobian theta)) (fcn theta)
  (theta.1 - upd.1, theta.2 - upd.2)

/-- The loop guard `abs(g[0]) > thresh or abs(g[1]) > thresh`. -/
def nrGuard (thresh : ℚ) (g : ℚ × ℚ) : Bool :=
  decide (thresh < |g.1|) || decide (thresh < |g.2|)

/-- `theta` after `k` executions of the loop body, starting from `guess`. -/
def nrIterate (fcn : ℚ × ℚ → ℚ × ℚ) (jacobian : ℚ × ℚ → (ℚ × ℚ) × (ℚ × ℚ))
    (guess : ℚ × ℚ) : Nat → ℚ × ℚ
  | 0 => guess
  | k + 1 => nrStep fcn jacobian (nrIterate fcn jacobian guess k)

/-- `NewtonRaphson(fcn, jacobian, guess, thresh)` returns (the `while`
loop exits) precisely when some iterate drives the guard false. -/
def nrTerminates (fcn : ℚ × ℚ → ℚ × ℚ) (jacobian : ℚ × ℚ → (ℚ × ℚ) × (ℚ × ℚ))
    (guess : ℚ × ℚ) (thresh : ℚ) : Prop :=
  ∃ k, nrGuard thresh (fcn (nrIterate fcn jacobian guess k)) = false

/-- Residual function that never meets the threshold (a concrete value of
the `fcn` parameter). -/
def constResidual : ℚ × ℚ → ℚ × ℚ := fun _ => (1, 0)

/-- Identity Jacobian (a concrete, everywhere-invertible value of the
`jacobian` parameter). -/
def idJacobian : ℚ × ℚ → (ℚ × ℚ) × (ℚ × ℚ) := fun _ => ((1, 0), (0, 1))

/-- C4 counterexample: the claim says the Newton-Raphson solve terminates
on every input thanks to an explicit iteration cap.  The source's `while`
loop has no cap at all: on the concrete input `fcn = constResidual`
(residual constantly `(1, 0)`), `jacobian = idJacobian`, `guess = (0, 0)`,
`thresh = 1/10000`, the guard holds after every number of iterations, so
the loop never exits (and no `KinematicDivergence` error exists anywhere
in the repository to be raised). -/
theorem newton_raphson_no_cap :
    ¬ nrTerminates constResidual idJacobian (0, 0) (1 / 10000) := by
  rintro ⟨k, hk⟩
  simp only [nrTerminates, nrGuard, constResidual] at hk
  norm_num at hk

/-- C4 amended: `NewtonRaphson` is an unbounded iteration: whenever the
residual never falls to the threshold along the way — in particular for
every input whose residual stays above it everywhere — the loop runs
forever; non-convergence is not detected, no iteration cap exists, and no
error is raised. -/
theorem newton_raphson_unbounded (fcn : ℚ × ℚ → ℚ × ℚ)
    (jacobian : ℚ × ℚ → (ℚ × ℚ) × (ℚ × ℚ)) (guess : ℚ × ℚ) (thresh : ℚ)
    (h : ∀ theta, nrGuard thresh (fcn theta) = true) :
    ¬ nrTerminates fcn jacobian guess thresh := by
  rintro ⟨k, hk⟩
  rw [h] at hk
  cases hk

/-- Witness for C4 (amended) at the constant residual `(1, 0)` and the
starting guess `(1, 1)`. -/
theorem newton_raphson_unbounded_witness :
    ¬ nrTerminates constResidual idJacobian (1, 1) (1 / 10000) :=
  newton_raphson_unbounded constResidual idJacobian (1, 1) (1 / 10000)
    (fun _ => by simp only [nrGuard, constResidual]; norm_num)

/-! ## Plot-description parsing (tasks.py lines 244-278)

`create_cmd_list` splits the drawing line on `';'`, then removes entries
with the loop

    i = 0
    while i < len(cmd_str_list):
        if 'PU' in cmd_str_list[i] or 'PD' in cmd_str_list[i]:
            i += 1
        else:
            cmd_str_list.remove(cmd_str_list[i])

Python's `in` on strings is substring containment (anywhere, not just at
the start), and `list.remove(v)` removes the first element equal to `v`.
Afterwards each retained command is split as `type = cmd[0:2]`,
`args = cmd[2:]`, and a tuple is appended only under `if len(args):`.
String slicing and containment act on code points, i.e. on `String.data`.
The numeric conversion of the argument list is abstracted as a parameter
`parseCoords` (its value is irrelevant to the claims below). -/

/-- Python's substring test `needle in hay` on code-point lists. -/
def containsSub (needle : List Char) : List Char → Bool
  | [] => needle.isEmpty
  | c :: t => needle.isPrefixOf (c :: t) || containsSub needle t

/-- The retention test `'PU' in cmd or 'PD' in cmd`. -/
def keepCmd (cmd : String) : Bool :=
  containsSub "PU".data cmd.data || containsSub "PD".data cmd.data

/-- The in-place removal loop of `create_cmd_list`: `l` is the current
list, `i` the loop index; `list.remove` is `List.erase`. -/
def removeLoop (l : List String) (i : Nat) : List String :=
  if h : i < l.length then
    if keepCmd l[i] then removeLoop l (i + 1)
    else removeLoop (l.erase l[i]) i
  else l
termination_by l.length - i
decreasing_by
  · omega
  · have hm : l[i] ∈ l := List.getElem_mem h
    have := List.length_erase_of_mem hm
    omega

/-- Modelled from the claim's wording (not from the source): the token
"begins with the two-letter pen-up or pen-down opcode". -/
def spec_beginsWithPenOp (cmd : String) : Bool :=
  "PU".data.isPrefixOf cmd.data || "PD".data.isPrefixOf cmd.data

/-- Helper: past position `i` the removal loop behaves as a filter,
provided everything before `i` has already passed the test.  (This
invariant is what makes the source's `remove`-by-value correct: a removed
value cannot also occur among the already-retained prefix, because
retention depends only on the value.) -/
theorem removeLoop_eq_filter_aux (fuel : Nat) :
    ∀ (l : List String) (i : Nat), l.length - i ≤ fuel →
    (∀ x ∈ l.take i, keepCmd x = true) →
    removeLoop l i = l.take i ++ (l.drop i).filter keepCmd := by
  induction fuel with
  | zero =>
    intro l i hfuel _
    have hlen : l.length ≤ i := by omega
    rw [removeLoop, dif_neg (by omega)]
    rw [List.take_of_length_le hlen, List.drop_eq_nil_of_le hlen,
      List.filter_nil, List.append_nil]
  | succ fuel ih =>
    intro l i hfuel hinv
    by_cases h : i < l.length
    · rw [removeLoop, dif_pos h]
      by_cases hk : keepCmd l[i] = true
      · rw [if_pos hk]
        have hinv' : ∀ x ∈ l.take (i + 1), keepCmd x = true := by
          intro x hx
          rw [List.take_succ, List.getElem?_eq_getElem h] at hx
          rcases List.mem_append.mp hx with hx' | hx'
          · exact hinv x hx'
          · rcases List.mem_singleton.mp (by simpa using hx') with rfl
            exact hk
        rw [ih l (i + 1) (by omega) hinv']
        rw [List.drop_eq_getElem_cons h, List.filter_cons, if_pos hk,
          ← List.take_concat_get l i h, List.concat_eq_append,
          List.append_assoc, List.singleton_append]
      · rw [if_neg hk]
        have hmem : l[i] ∈ l := List.getElem_mem h
        have hdrop : l.drop i = l[i] :: l.drop (i + 1) :=
          List.drop_eq_getElem_cons h
        set v := l[i] with hvdef
        have hnot : v ∉ l.take i := fun hmemtake => hk (hinv _ hmemtake)
        have herase : l.erase v = l.take i ++ l.drop (i + 1) := by
          conv_lhs => rw [← List.take_append_drop i l]
          rw [List.erase_append_right _ hnot, hdrop, List.erase_cons_head]
        have hlentake : (l.take i).length = i := by
          rw [List.length_take]
          omega
        have hfuel' : (l.erase v).length - i ≤ fuel := by
          have := List.length_erase_of_mem hmem
          omega
        rw [ih (l.erase v) i hfuel' (by
          intro x hx
          rw [herase, List.take_left' hlentake] at hx
          exact hinv x hx)]
        rw [herase, List.take_left' hlentake, List.drop_left' hlentake,
          hdrop, List.filter_cons, if_neg hk]
    · rw [removeLoop, dif_neg h]
      have hlen : l.length ≤ i := by omega
      rw [List.take_of_length_le hlen, List.drop_eq_nil_of_le hlen,
        List.filter_nil, List.append_nil]

/-- C8 amended: the parse step's removal loop retains exactly the tokens
in which `PU` or `PD` occurs as a substring *anywhere* (Python's `in`),
i.e. it is the filter by `keepCmd`; beginning with the opcode is
sufficient but not necessary for retention. -/
theorem remove_other_cmds (l : List String) :
    removeLoop l 0 = l.filter keepCmd := by
  rw [removeLoop_eq_filter_aux l.length l 0 (by omega) (by simp)]
  simp

/-- C8 counterexample: the token `"XPU1,2"` does not begin with `PU` or
`PD`, yet the removal loop retains it (because `'PU' in "XPU1,2"` is
true), so "retained iff the token begins with the opcode" fails. -/
theorem retained_token_not_prefixed :
    removeLoop ["XPU1,2"] 0 = ["XPU1,2"] ∧
      spec_beginsWithPenOp "XPU1,2" = false := by
  constructor
  · rw [removeLoop_eq_filter_aux 1 ["XPU1,2"] 0 (by simp) (by simp)]
    decide
  · decide

/-- The command-tuple construction loop of `create_cmd_list`: for each
retained command string, `type = cmd[0:2]`, `args = cmd[2:]`, and
`cmd_list.append((type, x_arr, y_arr))` runs only under `if len(args):`.
The numeric conversion of `args` into the two coordinate arrays is the
parameter `parseCoords`. -/
def buildCmds (parseCoords : String → List ℚ × List ℚ) :
    List String → List (String × (List ℚ × List ℚ))
  | [] => []
  | cmd :: rest =>
    let ty : String := ⟨cmd.data.take 2⟩
    let args : String := ⟨cmd.data.drop 2⟩
    if args.data.length ≠ 0 then
      (ty, parseCoords args) :: buildCmds parseCoords rest
    else
      buildCmds parseCoords rest

/-- C10: a retained pen command that carries no coordinate arguments
(e.g. a bare `"PU"`) produces no command tuple at all: wherever it occurs
in the retained token list, the resulting command list is the same as if
the token were absent, for every argument parser. -/
theorem argless_pen_cmd_dropped (parseCoords : String → List ℚ × List ℚ)
    (pre post : List String) (cmd : String)
    (hkeep : keepCmd cmd = true) (hargs : cmd.data.drop 2 = []) :
    buildCmds parseCoords (pre ++ cmd :: post) =
      buildCmds parseCoords (pre ++ post) := by
  induction pre with
  | nil =>
    rw [List.nil_append, List.nil_append]
    show (if (cmd.data.drop 2).length ≠ 0 then _ else buildCmds parseCoords post) = _
    rw [if_neg (by rw [hargs]; simp)]
  | cons a t iht =>
    rw [List.cons_append, List.cons_append]
    show (if (a.data.drop 2).length ≠ 0 then
        (⟨a.data.take 2⟩, parseCoords ⟨a.data.drop 2⟩) :: buildCmds parseCoords (t ++ cmd :: post)
      else buildCmds parseCoords (t ++ cmd :: post)) = _
    rw [iht]
    rfl

/-- Witness for C10: the bare token `"PU"` between `"PD0,0"` and
`"PU0,0"` contributes nothing, under a trivial argument parser. -/
theorem argless_pen_cmd_dropped_witness :
    buildCmds (fun _ => ([], [])) ["PD0,0", "PU", "PU0,0"] =
      buildCmds (fun _ => ([], [])) ["PD0,0", "PU0,0"] :=
  argless_pen_cmd_dropped (fun _ => ([], [])) ["PD0,0"] ["PU0,0"] "PU"
    (by decide) (by decide)

/-! ## Homing state machine (stepper_driver.py lines 110-123, 318-413)

The registers touched by `set_position` and `homing_in_progress`, carried
as a simulated-bus state: the committed X_TARGET and X_ACTUAL values, the
REF_CONF byte (`recv[2]` of the reference-configuration register, whose
low two bits select/disable the left reference switch), and the RAMP_MODE
byte (`send[3]`: `0b00` ramp mode, `0b10` velocity mode).

`homing_in_progress` reads the latch bit `lp = recv[1] & 1`; while it is
set the call returns `True` with no side effect; on reading it clear the
call rewrites REF_CONF (`recv[2] &= 0xF0; recv[2] |= 0b11`, disabling the
switch), calls `set_position(0)` and returns `False`.  The simulated
limit switch of the claim supplies the latch bit as a function of the
poll cycle: set for cycles `1 … N-1`, clear from cycle `N` on. -/

structure TMCState where
  xTarget : Nat
  xActual : Nat
  refConf : Nat
  rampMode : Nat
  deriving DecidableEq

/-- `set_ramp_mode(mode)` (lines 110-123): `send[3]` is `0b10` exactly
when `mode == 'velocity_mode'`, else `0b00`. -/
def set_ramp_mode_reg (mode : String) (s : TMCState) : TMCState :=
  { s with rampMode := if mode == "velocity_mode" then 2 else 0 }

/-- The register effect of `set_target` for the non-negative arguments
used during homing (clamping `if x_target > self.x_max`). -/
def set_target_reg (xmax x : Nat) (s : TMCState) : TMCState :=
  { s with xTarget := if x > xmax then xmax else x }

/-- `set_position(x)` (lines 318-348): clamp, enter velocity mode, write
X_TARGET via `set_target`, write X_ACTUAL, restore ramp mode. -/
def set_position_reg (xmax x : Nat) (s : TMCState) : TMCState :=
  let x1 := if x > xmax then xmax else x
  let s1 := set_ramp_mode_reg "velocity_mode" s
  let s2 := set_target_reg xmax x1 s1
  let s3 := { s2 with xActual := x1 }
  set_ramp_mode_reg "ramp_mode" s3

/-- `homing_in_progress()` (lines 381-413) as a function of the byte
`recv[1]` returned for the latch-status read. -/
def homing_in_progress (xmax recv1 : Nat) (s : TMCState) : Bool × TMCState :=
  let lp := recv1 &&& 1
  if lp = 0 then
    let s1 := { s with refConf := (s.refConf &&& 0xF0) ||| 0b11 }
    (false, set_position_reg xmax 0 s1)
  else
    (true, s)

/-- The simulated limit switch: the latch bit read at poll cycle `i`
(1-indexed) is set before cycle `N` and clear from cycle `N` on. -/
def simLatchBit (N i : Nat) : Nat := if i < N then 1 else 0

/-- Driver state after `i` polls of `homing_in_progress` against the
simulated switch. -/
def homingStateAfter (xmax N : Nat) (s0 : TMCState) : Nat → TMCState
  | 0 => s0
  | i + 1 =>
    (homing_in_progress xmax (simLatchBit N (i + 1)) (homingStateAfter xmax N s0 i)).2

/-- The boolean returned by the `i`-th poll (1-indexed). -/
def homingPollResult (xmax N : Nat) (s0 : TMCState) (i : Nat) : Bool :=
  (homing_in_progress xmax (simLatchBit N i) (homingStateAfter xmax N s0 (i - 1))).1

/-- The state every poll from cycle `N` on leaves behind: position
redefined to zero, reference switch disabled, ramp mode restored. -/
def homedState (s0 : TMCState) : TMCState :=
  { xTarget := 0, xActual := 0, refConf := (s0.refConf &&& 0xF0) ||| 0b11,
    rampMode := 0 }

/-- Helper: a poll that reads the latch bit clear performs the homing
transition: switch disabled by read-modify-write, position redefined to
zero, ramp mode restored. -/
theorem homing_step_fired (xmax : Nat) (s : TMCState) :
    homing_in_progress xmax 0 s = (false, homedState s) := by
  unfold homing_in_progress set_position_reg set_target_reg set_ramp_mode_reg homedState
  simp

/-- Helper: the homing transition is idempotent on driver state. -/
theorem homedState_idem (s : TMCState) :
    homedState (homedState s) = homedState s := by
  unfold homedState
  simp only [TMCState.mk.injEq, true_and, and_true]
  rw [Nat.and_distrib_right, show (3 &&& 240 : Nat) = 0 by decide, Nat.or_zero,
    Nat.and_assoc, show (240 &&& 240 : Nat) = 240 by decide]

/-- Helper: while the latch bit stays set the polls leave the driver
state untouched. -/
theorem homingStateAfter_before (xmax N : Nat) (s0 : TMCState) :
    ∀ i, i < N → homingStateAfter xmax N s0 i = s0 := by
  intro i
  induction i with
  | zero => intro _; rfl
  | succ k ihk =>
    intro h
    show (homing_in_progress xmax (simLatchBit N (k + 1)) (homingStateAfter xmax N s0 k)).2 = s0
    rw [ihk (by omega), show simLatchBit N (k + 1) = 1 from by
      unfold simLatchBit; rw [if_pos (by omega)]]
    rfl

/-- Helper: from poll `N` on the driver state is the homed state. -/
theorem homingStateAfter_from (xmax N : Nat) (s0 : TMCState) (hN : 1 ≤ N) :
    ∀ k, homingStateAfter xmax N s0 (N + k) = homedState s0 := by
  intro k
  induction k with
  | zero =>
    obtain ⟨m, rfl⟩ : ∃ m, N = m + 1 := ⟨N - 1, by omega⟩
    show (homing_in_progress xmax (simLatchBit (m + 1) (m + 1))
      (homingStateAfter xmax (m + 1) s0 m)).2 = homedState s0
    rw [homingStateAfter_before xmax (m + 1) s0 m (by omega),
      show simLatchBit (m + 1) (m + 1) = 0 from by
        unfold simLatchBit; rw [if_neg (by omega)],
      homing_step_fired]
  | succ k ihk =>
    show (homing_in_progress xmax (simLatchBit N (N + k + 1))
      (homingStateAfter xmax N s0 (N + k))).2 = homedState s0
    rw [ihk, show simLatchBit N (N + k + 1) = 0 from by
      unfold simLatchBit; rw [if_neg (by omega)],
      homing_step_fired]
    exact homedState_idem s0

/-- C5: against a simulated limit switch whose latch bit asserts at poll
cycle `N`, `homing_in_progress()` returns true for each of the first
`N - 1` polls, false from poll `N` onward, the actual-position register
reads 0 immediately after the first false, and the first false disables
the reference switch so that every subsequent call leaves the driver
state unchanged. -/
theorem homing_transition (xmax N : Nat) (s0 : TMCState) (hN : 1 ≤ N) :
    (∀ i, 1 ≤ i → i < N → homingPollResult xmax N s0 i = true)
    ∧ (∀ i, N ≤ i → homingPollResult xmax N s0 i = false)
    ∧ (homingStateAfter xmax N s0 N).xActual = 0
    ∧ (∀ k, homingStateAfter xmax N s0 (N + k) = homingStateAfter xmax N s0 N) := by
  have hbase := homingStateAfter_from xmax N s0 hN 0
  rw [Nat.add_zero] at hbase
  refine ⟨?_, ?_, ?_, ?_⟩
  · intro i h1 hiN
    unfold homingPollResult
    rw [show simLatchBit N i = 1 from by unfold simLatchBit; rw [if_pos hiN]]
    rfl
  · intro i hNi
    unfold homingPollResult
    rw [show simLatchBit N i = 0 from by unfold simLatchBit; rw [if_neg (by omega)],
      homing_step_fired]
  · rw [hbase]
    rfl
  · intro k
    rw [homingStateAfter_from xmax N s0 hN k, hbase]

/-- Witness for C5 at `N = 3` and an arbitrary concrete starting state. -/
theorem homing_transition_witness :
    homingPollResult 20000 3 ⟨5, 7, 255, 0⟩ 2 = true
    ∧ homingPollResult 20000 3 ⟨5, 7, 255, 0⟩ 3 = false
    ∧ (homingStateAfter 20000 3 ⟨5, 7, 255, 0⟩ 3).xActual = 0 :=
  ⟨(homing_transition 20000 3 ⟨5, 7, 255, 0⟩ (by decide)).1 2 (by decide) (by decide),
   (homing_transition 20000 3 ⟨5, 7, 255, 0⟩ (by decide)).2.1 3 (by decide),
   (homing_transition 20000 3 ⟨5, 7, 255, 0⟩ (by decide)).2.2.1⟩

/-! ## Telemetry publisher emission loop (tasks.py lines 408-449)

`task_comms_fun` keeps `last_cmd_type`, re-reads the shared slot
`{share_cmd_type, share_theta0, share_theta1}` once per pass, and emits:

    if cmd_type != last_cmd_type:
        if cmd_type == TYPE_PEN_UP:    write "PU\r\n"
        elif cmd_type == TYPE_PEN_DOWN: write "PD\r\n"
    elif cmd_type > 0:
        write "theta0, theta1\r\n"
    last_cmd_type = cmd_type

The Motion Executor's publishes are the `share_cmd_type.put` /
`share_theta0.put`+`share_theta1.put` calls (tasks.py lines 370, 374,
392-393; the two theta puts happen back-to-back with no yield between
them, so they are one event).  A trace is a list of segments: the
executor publishes occurring between two consecutive publisher passes,
each segment followed by exactly one pass. -/

structure TelemetrySlot where
  kind : Nat
  theta0 : Int
  theta1 : Int
  deriving DecidableEq

/-- One Motion Executor publish into the shared slot. -/
inductive MEPub
  | putKind (k : Nat)
  | putTheta (t0 t1 : Int)
  deriving DecidableEq

/-- Overwrite semantics of the single-slot shares. -/
def applyPub (s : TelemetrySlot) : MEPub → TelemetrySlot
  | .putKind k => { s with kind := k }
  | .putTheta t0 t1 => { s with theta0 := t0, theta1 := t1 }

/-- Slot contents after a burst of publishes. -/
def applyPubs (s : TelemetrySlot) (seg : List MEPub) : TelemetrySlot :=
  seg.foldl applyPub s

/-- One record of the telemetry wire protocol. -/
inductive TelemetryRec
  | pu
  | pd
  | sample (t0 t1 : Int)
  | endMark
  deriving DecidableEq

/-- The records written by one pass of the publisher's loop body, as a
function of the slot kind read, the publisher's `last_cmd_type`, and the
theta shares. -/
def commsEmit (kind last : Nat) (t0 t1 : Int) : List TelemetryRec :=
  if kind ≠ last then
    if kind = TYPE_PEN_UP then [.pu]
    else if kind = TYPE_PEN_DOWN then [.pd]
    else []
  else if kind > 0 then [.sample t0 t1] else []

/-- Publisher-side state: the slot, `last_cmd_type`, and the emitted
stream so far. -/
structure CommsView where
  slot : TelemetrySlot
  last : Nat
  out : List TelemetryRec
  deriving DecidableEq

/-- Apply one segment of executor publishes followed by one publisher
pass (loop body: read the slot, emit, `last_cmd_type = cmd_type`). -/
def runSegment (v : CommsView) (seg : List MEPub) : CommsView :=
  let s := applyPubs v.slot seg
  { slot := s, last := s.kind,
    out := v.out ++ commsEmit s.kind v.last s.theta0 s.theta1 }

/-- Run a whole trace of segments. -/
def runSegments (v : CommsView) : List (List MEPub) → CommsView
  | [] => v
  | seg :: rest => runSegments (runSegment v seg) rest

/-- Does this publish change the slot's kind field? -/
def isKindChange (s : TelemetrySlot) : MEPub → Bool
  | .putKind k => k != s.kind
  | .putTheta _ _ => false

/-- Number of discrete kind changes a burst of publishes writes into the
slot. -/
def kindChanges (s : TelemetrySlot) : List MEPub → Nat
  | [] => 0
  | e :: rest => (if isKindChange s e then 1 else 0) + kindChanges (applyPub s e) rest

/-- Total number of discrete kind changes over a whole trace. -/
def totalChanges (s : TelemetrySlot) : List (List MEPub) → Nat
  | [] => 0
  | seg :: rest => kindChanges s seg + totalChanges (applyPubs s seg) rest

/-- The claim's scheduling hypothesis: at most one pen-kind change between
two publisher passes. -/
def segsOKb (s : TelemetrySlot) : List (List MEPub) → Bool
  | [] => true
  | seg :: rest => decide (kindChanges s seg ≤ 1) && segsOKb (applyPubs s seg) rest

/-- A publish of a kind is a pen kind (`TYPE_PEN_UP`/`TYPE_PEN_DOWN`). -/
def penKindOK : MEPub → Bool
  | .putKind k => decide (k = TYPE_PEN_UP ∨ k = TYPE_PEN_DOWN)
  | .putTheta _ _ => true

/-- Is this record a discrete pen marker? -/
def isMarker : TelemetryRec → Bool
  | .pu => true
  | .pd => true
  | _ => false

/-- Is this record a numeric sample? -/
def isSample : TelemetryRec → Bool
  | .sample _ _ => true
  | _ => false

/-- Number of PU/PD marker records in a stream. -/
def markerCount (l : List TelemetryRec) : Nat := (l.filter isMarker).length

/-- Number of numeric sample records in a stream. -/
def sampleCount (l : List TelemetryRec) : Nat := (l.filter isSample).length

/-- Is this publish a theta publish? -/
def isThetaPub : MEPub → Bool
  | .putTheta _ _ => true
  | _ => false

/-- Number of theta publishes in a trace. -/
def thetaPubCount (segs : List (List MEPub)) : Nat :=
  (segs.map (fun seg => (seg.filter isThetaPub).length)).sum

/-- Helper: `applyPubs` unfolds one publish at a time. -/
theorem applyPubs_cons (s : TelemetrySlot) (e : MEPub) (rest : List MEPub) :
    applyPubs s (e :: rest) = applyPubs (applyPub s e) rest := rfl

/-- Helper: a publish that is not a kind change preserves the slot kind. -/
theorem applyPub_kind_of_not_change (s : TelemetrySlot) (e : MEPub)
    (h : isKindChange s e = false) : (applyPub s e).kind = s.kind := by
  cases e with
  | putKind k =>
    unfold isKindChange at h
    simp only [bne_eq_false_iff_eq] at h
    exact h
  | putTheta t0 t1 => rfl

/-- Helper: a burst with no kind change leaves the slot kind unchanged. -/
theorem applyPubs_kind_of_no_change :
    ∀ (seg : List MEPub) (s : TelemetrySlot), kindChanges s seg = 0 →
      (applyPubs s seg).kind = s.kind := by
  intro seg
  induction seg with
  | nil => intro s _; rfl
  | cons e rest ih =>
    intro s h
    unfold kindChanges at h
    have h0 : isKindChange s e = false := by
      by_contra hc
      rw [Bool.not_eq_false] at hc
      rw [hc] at h
      simp at h
    rw [h0] at h
    simp only [if_neg Bool.false_ne_true, Nat.zero_add] at h
    rw [applyPubs_cons, ih (applyPub s e) h, applyPub_kind_of_not_change s e h0]

/-- Helper: a burst with exactly one kind change, all written kinds pen
kinds, ends with a pen kind different from the entering kind. -/
theorem applyPubs_kind_of_one_change :
    ∀ (seg : List MEPub) (s : TelemetrySlot), kindChanges s seg = 1 →
      seg.all penKindOK = true →
      (applyPubs s seg).kind ≠ s.kind ∧
        ((applyPubs s seg).kind = TYPE_PEN_UP ∨ (applyPubs s seg).kind = TYPE_PEN_DOWN) := by
  intro seg
  induction seg with
  | nil => intro s h _; cases h
  | cons e rest ih =>
    intro s h hpen
    rw [List.all_cons, Bool.and_eq_true] at hpen
    unfold kindChanges at h
    by_cases hc : isKindChange s e = true
    · rw [hc] at h
      simp only [eq_self_iff_true, if_true] at h
      have hrest : kindChanges (applyPub s e) rest = 0 := by omega
      have hfin : (applyPubs (applyPub s e) rest).kind = (applyPub s e).kind :=
        applyPubs_kind_of_no_change rest (applyPub s e) hrest
      cases e with
      | putKind k =>
        unfold isKindChange at hc
        have hkind : (applyPub s (MEPub.putKind k)).kind = k := rfl
        have hpenk : k = TYPE_PEN_UP ∨ k = TYPE_PEN_DOWN := by
          have := hpen.1
          unfold penKindOK at this
          exact of_decide_eq_true this
        rw [applyPubs_cons, hfin, hkind]
        exact ⟨by simpa using hc, hpenk⟩
      | putTheta t0 t1 => cases hc
    · rw [Bool.not_eq_true] at hc
      rw [hc] at h
      simp only [if_neg Bool.false_ne_true, Nat.zero_add] at h
      have hkind : (applyPub s e).kind = s.kind := applyPub_kind_of_not_change s e hc
      have hres := ih (applyPub s e) h hpen.2
      rw [hkind] at hres
      rw [applyPubs_cons]
      exact hres

/-- Helper: a pass that reads an unchanged kind emits no marker. -/
theorem markerCount_emit_same (k : Nat) (t0 t1 : Int) :
    markerCount (commsEmit k k t0 t1) = 0 := by
  unfold commsEmit markerCount
  rw [if_neg (by simp)]
  by_cases h : k > 0
  · rw [if_pos h]
    rfl
  · rw [if_neg h]
    rfl

/-- Helper: a pass that reads a changed pen kind emits exactly one
marker. -/
theorem markerCount_emit_pen (k last : Nat) (t0 t1 : Int) (hne : k ≠ last)
    (hk : k = TYPE_PEN_UP ∨ k = TYPE_PEN_DOWN) :
    markerCount (commsEmit k last t0 t1) = 1 := by
  unfold commsEmit markerCount
  rw [if_pos hne]
  rcases hk with rfl | rfl
  · rw [if_pos rfl]
    rfl
  · rw [if_neg (by decide), if_pos rfl]
    rfl

/-- C7: over every trace of Motion Executor publishes interleaved with
Telemetry Publisher passes — one segment of publishes before each pass,
at most one pen-kind change per segment, all published kinds pen kinds —
the number of PU/PD marker records in the emitted stream equals the
number of discrete pen-state transitions written to the slot (each
transition yields exactly one marker, because the publisher compares the
slot's kind against its own last-seen kind); numeric sample records are
emitted only on passes whose kind is unchanged, and can be fewer than
the Motion Executor's publishes (concrete trace: two theta publishes,
one pass, zero samples). -/
theorem telemetry_transition_completeness :
    (∀ (segs : List (List MEPub)) (v : CommsView),
      v.slot.kind = v.last →
      segsOKb v.slot segs = true →
      segs.all (fun seg => seg.all penKindOK) = true →
      markerCount (runSegments v segs).out
        = markerCount v.out + totalChanges v.slot segs)
    ∧ (∀ kind last t0 t1, kind ≠ last →
        sampleCount (commsEmit kind last t0 t1) = 0)
    ∧ sampleCount (runSegments ⟨⟨0, 0, 0⟩, 0, []⟩
        [[MEPub.putTheta 5 6, MEPub.putTheta 7 8]]).out
      < thetaPubCount [[MEPub.putTheta 5 6, MEPub.putTheta 7 8]] := by
  refine ⟨?_, ?_, ?_⟩
  · intro segs
    induction segs with
    | nil =>
      intro v _ _ _
      show markerCount v.out = markerCount v.out + totalChanges v.slot []
      rw [show totalChanges v.slot [] = 0 from rfl, Nat.add_zero]
    | cons seg rest ih =>
      intro v hinv hok hpen
      rw [show segsOKb v.slot (seg :: rest)
          = (decide (kindChanges v.slot seg ≤ 1) && segsOKb (applyPubs v.slot seg) rest)
        from rfl, Bool.and_eq_true] at hok
      have hk1 : kindChanges v.slot seg ≤ 1 := of_decide_eq_true hok.1
      rw [List.all_cons, Bool.and_eq_true] at hpen
      have hstep := ih (runSegment v seg) rfl hok.2 hpen.2
      show markerCount (runSegments (runSegment v seg) rest).out = _
      rw [hstep]
      have hout : markerCount (runSegment v seg).out
          = markerCount v.out + markerCount
            (commsEmit (applyPubs v.slot seg).kind v.last
              (applyPubs v.slot seg).theta0 (applyPubs v.slot seg).theta1) := by
        show markerCount (v.out ++ _) = _
        unfold markerCount
        rw [List.filter_append, List.length_append]
      rw [hout]
      have hslot : (runSegment v seg).slot = applyPubs v.slot seg := rfl
      rw [hslot]
      rw [show totalChanges v.slot (seg :: rest)
          = kindChanges v.slot seg + totalChanges (applyPubs v.slot seg) rest from rfl]
      rcases Nat.le_one_iff_eq_zero_or_eq_one.mp hk1 with h0 | h0
      · have hkind : (applyPubs v.slot seg).kind = v.last := by
          rw [applyPubs_kind_of_no_change seg v.slot h0, hinv]
        rw [hkind, markerCount_emit_same, h0]
        omega
      · have hkind := applyPubs_kind_of_one_change seg v.slot h0 hpen.1
        rw [hinv] at hkind
        rw [markerCount_emit_pen _ _ _ _ hkind.1 hkind.2, h0]
        omega
  · intro kind last t0 t1 hne
    unfold commsEmit sampleCount
    rw [if_pos hne]
    by_cases h1 : kind = TYPE_PEN_UP
    · rw [if_pos h1]
      rfl
    · rw [if_neg h1]
      by_cases h2 : kind = TYPE_PEN_DOWN
      · rw [if_pos h2]
        rfl
      · rw [if_neg h2]
        rfl
  · decide

/-- Witness for C7 on the trace `PU`-change, theta sample, `PD`-change:
two transitions, two markers. -/
theorem telemetry_transition_completeness_witness :
    markerCount (runSegments ⟨⟨0, 0, 0⟩, 0, []⟩
        [[MEPub.putKind 1], [MEPub.putTheta 2 3], [MEPub.putKind 2]]).out
      = markerCount ([] : List TelemetryRec)
        + totalChanges ⟨0, 0, 0⟩
            [[MEPub.putKind 1], [MEPub.putTheta 2 3], [MEPub.putKind 2]] :=
  telemetry_transition_completeness.1
    [[MEPub.putKind 1], [MEPub.putTheta 2 3], [MEPub.putKind 2]]
    ⟨⟨0, 0, 0⟩, 0, []⟩ rfl (by decide) (by decide)

/-! ## Cooperative tasks and the top-level driver loop
(tasks.py lines 347-449 and 628-634)

The two generator tasks are embedded as state machines whose states are
the `yield` points of the source; one resume runs from the current yield
to the next.  The Motion Executor's `target_reached` polls are abstracted
by per-resume oracle booleans `r1 r2 r3` (one per driver; the datagram
writes of `set_target` on the three drivers do not feed back into any
state this section reasons about).  The scheduler (`cotask`, an external
library) is taken from the spec's contract: each pass resumes one ready
task, the higher-priority Motion Executor preferentially; readiness
depends on task periods, so a pass is modelled as a free choice of which
task (if any) runs.

The top-level loop (lines 628-634) is

    while not share_cmd_type.get() == 3:
        cotask.task_list.pri_sched()
    for driver in drivers:
        driver.disable()

— note the sentinel it tests for is `3 = TYPE_CMDS_DONE` (the Motion
Executor's "commands done"), not `TYPE_COMMS_DONE`. -/

/-- One planned command tuple `(type, theta0-array, theta1-array)`. -/
structure PlotCmd where
  ty : String
  xs : List Int
  ys : List Int
  deriving DecidableEq

/-- The Motion Executor's resume points (tasks.py lines 347-406):
`waitBtn` = the start-gate wait, `penPoll` = the pen settle-wait,
`pts1`/`pts2` = the two arm settle-waits at point `i`, `afterDone` = the
final yield after publishing `TYPE_CMDS_DONE`. -/
inductive CmdsSt
  | waitBtn (cmds : List PlotCmd)
  | penPoll (cur : PlotCmd) (rest : List PlotCmd)
  | pts1 (cur : PlotCmd) (rest : List PlotCmd) (i : Nat)
  | pts2 (cur : PlotCmd) (rest : List PlotCmd) (i : Nat)
  | afterDone
  | dead
  deriving DecidableEq

/-- The Telemetry Publisher's resume points (tasks.py lines 408-449):
`inLoop ct` holds the `cmd_type` variable (equal to `last_cmd_type` at
every yield of the loop body), `endSt` is the final yield after `END`. -/
inductive CommsSt
  | waitBtn
  | inLoop (ct : Nat)
  | endSt
  | dead
  deriving DecidableEq

/-- Whole-system state: start-gate flag, the shared slot, both task
states, the emitted wire stream, and the driver-enable lines. -/
structure Sys where
  flag : Nat
  slot : TelemetrySlot
  cmds : CmdsSt
  comms : CommsSt
  uartOut : List TelemetryRec
  disabled : Bool
  deriving DecidableEq

/-- Start one command: command the pen axis, publish the command kind
(`TYPE_PEN_UP` iff the tuple's type compares equal to `"PU"`), yield. -/
def startCmd (c : PlotCmd) (rest : List PlotCmd) (s : Sys) : Sys :=
  { s with
    slot := { s.slot with
      kind := if c.ty == "PU" then TYPE_PEN_UP else TYPE_PEN_DOWN },
    cmds := .penPoll c rest }

/-- Advance past an exhausted command: start the next one, or publish
`TYPE_CMDS_DONE` and yield for the last time. -/
def nextCmd (rest : List PlotCmd) (s : Sys) : Sys :=
  match rest with
  | [] => { s with slot := { s.slot with kind := TYPE_CMDS_DONE },
                   cmds := .afterDone }
  | c :: rs => startCmd c rs s

/-- Command both arm targets for point `i` and publish the thetas. -/
def setPoint (c : PlotCmd) (rest : List PlotCmd) (i : Nat) (s : Sys) : Sys :=
  { s with
    slot := { s.slot with theta0 := c.xs.getD i 0, theta1 := c.ys.getD i 0 },
    cmds := .pts1 c rest i }

/-- Move to point `i + 1`, or past the command when exhausted. -/
def advancePts (c : PlotCmd) (rest : List PlotCmd) (i : Nat) (s : Sys) : Sys :=
  if i + 1 < c.xs.length then setPoint c rest (i + 1) s else nextCmd rest s

/-- Enter the point loop of a command (or skip it when empty). -/
def enterPts (c : PlotCmd) (rest : List PlotCmd) (s : Sys) : Sys :=
  if 0 < c.xs.length then setPoint c rest 0 s else nextCmd rest s

/-- One resume of `task_cmds_fun`; `r1 r2 r3` are the values the three
`target_reached` polls would return on this pass. -/
def cmdsResume (r1 r2 r3 : Bool) (s : Sys) : Sys :=
  match s.cmds with
  | .waitBtn cmds => if s.flag ≠ 1 then s else nextCmd cmds s
  | .penPoll c rest => if r3 then enterPts c rest s else s
  | .pts1 c rest i =>
      if r1 then
        if r2 then advancePts c rest i s else { s with cmds := .pts2 c rest i }
      else s
  | .pts2 c rest i => if r2 then advancePts c rest i s else s
  | .afterDone => { s with cmds := .dead }
  | .dead => s

/-- One resume of `task_comms_fun`.  Within a single resume nothing else
runs, so the pre-loop read and the body's re-read of `share_cmd_type`
see the same value. -/
def commsResume (s : Sys) : Sys :=
  match s.comms with
  | .waitBtn =>
      if s.flag ≠ 1 then s
      else
        let ct := s.slot.kind
        if ct ≠ TYPE_CMDS_DONE then
          { s with comms := .inLoop ct,
                   uartOut := s.uartOut
                     ++ commsEmit ct 0 s.slot.theta0 s.slot.theta1 }
        else
          { s with comms := .endSt,
                   uartOut := s.uartOut ++ [.endMark],
                   slot := { s.slot with kind := TYPE_COMMS_DONE } }
  | .inLoop ct =>
      if ct ≠ TYPE_CMDS_DONE then
        let ct2 := s.slot.kind
        { s with comms := .inLoop ct2,
                 uartOut := s.uartOut
                   ++ commsEmit ct2 ct s.slot.theta0 s.slot.theta1 }
      else
        { s with comms := .endSt,
                 uartOut := s.uartOut ++ [.endMark],
                 slot := { s.slot with kind := TYPE_COMMS_DONE } }
  | .endSt => { s with comms := .dead }
  | .dead => s

/-- What one `pri_sched()` pass does: resume the Motion Executor (with
its poll-oracle values), resume the Telemetry Publisher, or nothing (no
task ready this pass). -/
inductive SchedChoice
  | runCmds (r1 r2 r3 : Bool)
  | runComms
  | idle
  deriving DecidableEq

/-- Effect of one scheduler pass. -/
def schedPass (c : SchedChoice) (s : Sys) : Sys :=
  match c with
  | .runCmds r1 r2 r3 => cmdsResume r1 r2 r3 s
  | .runComms => commsResume s
  | .idle => s

/-- `for driver in drivers: driver.disable()`. -/
def disableAll (s : Sys) : Sys := { s with disabled := true }

/-- The top-level driver loop, over a given schedule of passes: before
each pass the guard `not share_cmd_type.get() == 3` is evaluated; when it
fails the loop exits and all three drivers are disabled.  `none` means the
loop was still running when the modelled schedule ran out. -/
def mainLoop (sched : List SchedChoice) (s : Sys) : Option Sys :=
  if s.slot.kind = TYPE_CMDS_DONE then some (disableAll s)
  else
    match sched with
    | [] => none
    | c :: rest => mainLoop rest (schedPass c s)

/-- System state at program start (after homing), with the start button
already pressed and the planned command list `cmds`. -/
def sysInit (cmds : List PlotCmd) : Sys :=
  { flag := 1, slot := ⟨0, 0, 0⟩, cmds := .waitBtn cmds, comms := .waitBtn,
    uartOut := [], disabled := false }

/-- C6 counterexample: a run of the empty command list in which the
Motion Executor publishes `TYPE_CMDS_DONE` on the first pass.  The
top-level loop then exits and disables all three drivers, although the
Telemetry Publisher has not run at all: the emitted stream is empty — no
`END` marker — and the command-type slot holds `TYPE_CMDS_DONE`, not the
"comms done" sentinel the claim says the loop waits for.  (The publisher
was simply not ready during these passes, which its 100 ms period
permits.) -/
theorem drivers_disabled_before_end :
    (mainLoop [SchedChoice.runCmds true true true] (sysInit []) =
      some { flag := 1, slot := ⟨TYPE_CMDS_DONE, 0, 0⟩, cmds := CmdsSt.afterDone,
             comms := CommsSt.waitBtn, uartOut := [], disabled := true })
    ∧ TYPE_CMDS_DONE ≠ TYPE_COMMS_DONE := by
  decide

/-- C6 amended: the top-level driver loop runs scheduler passes exactly
until the Motion Executor's "commands done" sentinel (`TYPE_CMDS_DONE`)
is observed in the shared command-type slot, and then disables all three
motor drivers; it does not wait for the Telemetry Publisher's "comms
done" sentinel, so (per the counterexample) the drivers can be disabled
before `END` is emitted: whenever the loop terminates, the observed slot
value is `TYPE_CMDS_DONE` and the drivers end up disabled. -/
theorem scheduler_loop_exits_on_cmds_done (sched : List SchedChoice) (s sf : Sys)
    (h : mainLoop sched s = some sf) :
    sf.slot.kind = TYPE_CMDS_DONE ∧ sf.disabled = true := by
  induction sched generalizing s with
  | nil =>
    unfold mainLoop at h
    by_cases hg : s.slot.kind = TYPE_CMDS_DONE
    · rw [if_pos hg] at h
      cases h
      exact ⟨hg, rfl⟩
    · rw [if_neg hg] at h
      cases h
  | cons c rest ih =>
    unfold mainLoop at h
    by_cases hg : s.slot.kind = TYPE_CMDS_DONE
    · rw [if_pos hg] at h
      cases h
      exact ⟨hg, rfl⟩
    · rw [if_neg hg] at h
      exact ih (schedPass c s) h

/-- Witness for C6 (amended): the loop exits immediately from a state
whose slot already holds `TYPE_CMDS_DONE`. -/
theorem scheduler_loop_exits_on_cmds_done_witness :
    (disableAll { sysInit [] with slot := ⟨TYPE_CMDS_DONE, 0, 0⟩ }).slot.kind
        = TYPE_CMDS_DONE
    ∧ (disableAll { sysInit [] with slot := ⟨TYPE_CMDS_DONE, 0, 0⟩ }).disabled = true :=
  scheduler_loop_exits_on_cmds_done [] { sysInit [] with slot := ⟨TYPE_CMDS_DONE, 0, 0⟩ }
    (disableAll { sysInit [] with slot := ⟨TYPE_CMDS_DONE, 0, 0⟩ }) (by decide)
